import Mathlib

/-!
Verification of the xingrin backend against its specification.

Each Python component referenced by the claims is shallowly embedded as an
executable Lean definition, translated from the source files under
backend/apps.  Machine arithmetic on CPU/memory percentages and scores is
modelled with rationals; timestamps are naturals or rationals as noted.
-/

set_option maxHeartbeats 1000000

namespace Xingrin

/- ------------------------------------------------------------------ -/
/- Task dispatcher: select_best_worker                                 -/
/- (backend/apps/engine/services/task_distributor.py)                  -/
/- ------------------------------------------------------------------ -/

/-- Live telemetry for one worker, as read from the load registry
(cpu and mem are percentages). -/
structure Load where
  cpu : ℚ
  mem : ℚ
deriving DecidableEq, Repr

/-- Weighted score from task_distributor.py line 144:
score = cpu * 0.7 + mem * 0.3 (lower is better). -/
def loadScore (l : Load) : ℚ := l.cpu * (7/10) + l.mem * (3/10)

/-- Default of the HIGH_LOAD_WAIT_SECONDS setting
(task_distributor.py line 160). -/
def HIGH_LOAD_WAIT_SECONDS_default : ℕ := 60

/-- Outcome of one select_best_worker call.  chosen is the id of the
returned worker (none when the function returns None); sleptSeconds is the
total time slept inside the call; emittedHighLoad records whether the
all_workers_high_load signal was sent before returning. -/
structure SelectResult where
  chosen : Option ℕ
  sleptSeconds : ℕ
  emittedHighLoad : Bool
deriving DecidableEq, Repr

/-- First element of the list attaining the minimum score: the head of the
stable sort by score used at task_distributor.py lines 166 and 185
(Python sort is stable, so the head of the sorted list is the first
element attaining the minimal key). -/
def pickBest (l : List (ℕ × Load)) : Option (ℕ × Load) :=
  l.foldl (fun acc x =>
    match acc with
    | none => some x
    | some a => if loadScore x.2 < loadScore a.2 then some x else some a) none

/-- Partition condition from task_distributor.py line 147: a worker is put
on the high-load list when cpu is above 85 or mem is above 85. -/
def isHighLoad (l : Load) : Prop := 85 < l.cpu ∨ 85 < l.mem

instance (l : Load) : Decidable (isHighLoad l) := by
  unfold isHighLoad; infer_instance

/-- The workers that have telemetry, in input order
(task_distributor.py lines 132-137: a worker without load data is skipped). -/
def withTelemetry (workers : List (ℕ × Option Load)) : List (ℕ × Load) :=
  workers.filterMap (fun wl => wl.2.map (fun l => (wl.1, l)))

/-- The normal partition (task_distributor.py line 154). -/
def normalWorkers (workers : List (ℕ × Option Load)) : List (ℕ × Load) :=
  (withTelemetry workers).filter (fun wl => ¬ isHighLoad wl.2)

/-- The overloaded partition (task_distributor.py line 148). -/
def highLoadWorkers (workers : List (ℕ × Option Load)) : List (ℕ × Load) :=
  (withTelemetry workers).filter (fun wl => isHighLoad wl.2)

/-- TaskDistributor.select_best_worker (task_distributor.py lines 104-193),
over the list of online workers paired with their optional telemetry.
highLoadWait is the HIGH_LOAD_WAIT_SECONDS setting.  The code partitions the
workers with telemetry into normal and high-load lists; if the normal list
is non-empty it returns its minimum-score element; otherwise, if the
high-load list is non-empty, it sleeps highLoadWait seconds, picks the
minimum-score high-load element, emits the all_workers_high_load signal and
returns that element; otherwise it returns None. -/
def selectBestWorker (highLoadWait : ℕ)
    (workers : List (ℕ × Option Load)) : SelectResult :=
  if workers = [] then
    { chosen := none, sleptSeconds := 0, emittedHighLoad := false }
  else
    let normal := normalWorkers workers
    let high := highLoadWorkers workers
    if normal = [] then
      if high = [] then
        { chosen := none, sleptSeconds := 0, emittedHighLoad := false }
      else
        { chosen := (pickBest high).map Prod.fst,
          sleptSeconds := highLoadWait,
          emittedHighLoad := true }
    else
      { chosen := (pickBest normal).map Prod.fst,
        sleptSeconds := 0,
        emittedHighLoad := false }

lemma pickBest_aux_mem (l : List (ℕ × Load)) (a x : ℕ × Load)
    (h : l.foldl (fun acc x =>
      match acc with
      | none => some x
      | some a => if loadScore x.2 < loadScore a.2 then some x else some a)
        (some a) = some x) : x = a ∨ x ∈ l := by
  induction l generalizing a with
  | nil => simp at h; exact Or.inl h.symm
  | cons y ys ih =>
    simp only [List.foldl_cons] at h
    by_cases hc : loadScore y.2 < loadScore a.2
    · simp [hc] at h
      rcases ih y h with h1 | h1
      · exact Or.inr (by simp [h1])
      · exact Or.inr (List.mem_cons_of_mem _ h1)
    · simp [hc] at h
      rcases ih a h with h1 | h1
      · exact Or.inl h1
      · exact Or.inr (List.mem_cons_of_mem _ h1)

lemma pickBest_aux_le (l : List (ℕ × Load)) (a x : ℕ × Load)
    (h : l.foldl (fun acc x =>
      match acc with
      | none => some x
      | some a => if loadScore x.2 < loadScore a.2 then some x else some a)
        (some a) = some x) :
    loadScore x.2 ≤ loadScore a.2 ∧ ∀ y ∈ l, loadScore x.2 ≤ loadScore y.2 := by
  induction l generalizing a with
  | nil => simp at h; simp [h]
  | cons y ys ih =>
    simp only [List.foldl_cons] at h
    by_cases hc : loadScore y.2 < loadScore a.2
    · simp [hc] at h
      rcases ih y h with ⟨h1, h2⟩
      refine ⟨le_trans h1 (le_of_lt hc), ?_⟩
      intro z hz
      rcases List.mem_cons.mp hz with hz | hz
      · exact hz ▸ h1
      · exact h2 z hz
    · simp [hc] at h
      rcases ih a h with ⟨h1, h2⟩
      refine ⟨h1, ?_⟩
      intro z hz
      rcases List.mem_cons.mp hz with hz | hz
      · exact hz ▸ le_trans h1 (not_lt.mp hc)
      · exact h2 z hz

lemma pickBest_spec (l : List (ℕ × Load)) (hl : l ≠ []) :
    ∃ x, pickBest l = some x ∧ x ∈ l ∧
      ∀ y ∈ l, loadScore x.2 ≤ loadScore y.2 := by
  cases l with
  | nil => exact absurd rfl hl
  | cons a as =>
    unfold pickBest
    simp only [List.foldl_cons]
    rcases hres : as.foldl (fun acc x =>
      match acc with
      | none => some x
      | some a => if loadScore x.2 < loadScore a.2 then some x else some a)
        (some a) with _ | x
    · exfalso
      -- the fold of a some accumulator is never none
      clear hl
      induction as generalizing a with
      | nil => simp at hres
      | cons b bs ih =>
        simp only [List.foldl_cons] at hres
        by_cases hc : loadScore b.2 < loadScore a.2
        · simp [hc] at hres; exact ih b hres
        · simp [hc] at hres; exact ih a hres
    · refine ⟨x, hres, ?_, ?_⟩
      · rcases pickBest_aux_mem as a x hres with h | h
        · simp [h]
        · exact List.mem_cons_of_mem _ h
      · intro y hy
        rcases pickBest_aux_le as a x hres with ⟨h1, h2⟩
        rcases List.mem_cons.mp hy with hy | hy
        · exact hy ▸ h1
        · exact h2 y hy

lemma withTelemetry_all (workers : List (ℕ × Option Load))
    (hall : ∀ wl ∈ workers, wl.2 ≠ none) :
    withTelemetry workers = workers.map (fun wl => (wl.1, wl.2.getD ⟨0, 0⟩)) := by
  induction workers with
  | nil => rfl
  | cons w ws ih =>
    have hw := hall w (List.mem_cons_self _ _)
    rcases hwl : w.2 with _ | l
    · exact absurd hwl hw
    · simp only [withTelemetry, List.filterMap_cons, hwl, Option.map_some',
        List.map_cons, Option.getD_some]
      rw [← withTelemetry]
      rw [ih (fun wl hwl' => hall wl (List.mem_cons_of_mem _ hwl'))]

/-- C1: For every call to select_best_worker over a non-empty set of online
workers that all have telemetry: the workers are partitioned into normal
(cpu at most 85 and mem at most 85) and overloaded; if the normal set is
non-empty, the minimum-score normal worker is returned with no waiting and
no high-load event; if the normal set is empty but the overloaded set is
not, the call sleeps HIGH_LOAD_WAIT_SECONDS (default 60), emits the
all-workers-high-load event, and returns the minimum-score overloaded
worker; if both sets are empty it returns none. -/
theorem select_best_worker_spec (highLoadWait : ℕ)
    (workers : List (ℕ × Option Load))
    (hne : workers ≠ [])
    (_hall : ∀ wl ∈ workers, wl.2 ≠ none) :
    (∀ wl ∈ withTelemetry workers,
        (wl ∈ normalWorkers workers ↔ wl.2.cpu ≤ 85 ∧ wl.2.mem ≤ 85) ∧
        (wl ∈ highLoadWorkers workers ↔ ¬(wl.2.cpu ≤ 85 ∧ wl.2.mem ≤ 85))) ∧
    (normalWorkers workers ≠ [] →
      ∃ w ∈ normalWorkers workers,
        selectBestWorker highLoadWait workers =
          { chosen := some w.1, sleptSeconds := 0, emittedHighLoad := false } ∧
        ∀ y ∈ normalWorkers workers, loadScore w.2 ≤ loadScore y.2) ∧
    (normalWorkers workers = [] → highLoadWorkers workers ≠ [] →
      ∃ w ∈ highLoadWorkers workers,
        selectBestWorker highLoadWait workers =
          { chosen := some w.1, sleptSeconds := highLoadWait,
            emittedHighLoad := true } ∧
        ∀ y ∈ highLoadWorkers workers, loadScore w.2 ≤ loadScore y.2) ∧
    (normalWorkers workers = [] → highLoadWorkers workers = [] →
      selectBestWorker highLoadWait workers =
        { chosen := none, sleptSeconds := 0, emittedHighLoad := false }) ∧
    HIGH_LOAD_WAIT_SECONDS_default = 60 := by
  refine ⟨?_, ?_, ?_, ?_, rfl⟩
  · intro wl hwl
    constructor
    · simp only [normalWorkers, List.mem_filter, decide_eq_true_eq, isHighLoad]
      constructor
      · rintro ⟨_, h⟩
        push_neg at h
        exact ⟨h.1, h.2⟩
      · intro h
        exact ⟨hwl, by push_neg; exact h⟩
    · simp only [highLoadWorkers, List.mem_filter, decide_eq_true_eq, isHighLoad]
      constructor
      · rintro ⟨_, h⟩
        intro hc
        rcases h with h | h
        · exact absurd hc.1 (not_le.mpr h)
        · exact absurd hc.2 (not_le.mpr h)
      · intro h
        refine ⟨hwl, ?_⟩
        by_contra hcon
        push_neg at hcon
        exact h ⟨hcon.1, hcon.2⟩
  · intro hnorm
    rcases pickBest_spec _ hnorm with ⟨w, hpick, hmem, hmin⟩
    refine ⟨w, hmem, ?_, hmin⟩
    simp [selectBestWorker, hne, hnorm, hpick]
  · intro hnorm hhigh
    rcases pickBest_spec _ hhigh with ⟨w, hpick, hmem, hmin⟩
    refine ⟨w, hmem, ?_, hmin⟩
    simp [selectBestWorker, hne, hnorm, hhigh, hpick]
  · intro hnorm hhigh
    simp [selectBestWorker, hne, hnorm, hhigh]

/-- C1 witness: the scenario from the spec, workers A (id 1, cpu 20,
mem 30) and B (id 2, cpu 92, mem 40).  A is normal and is returned with
score 23; B is overloaded. -/
theorem select_best_worker_spec_witness :
    ([((1 : ℕ), some (Load.mk 20 30)), (2, some (Load.mk 92 40))] ≠
        ([] : List (ℕ × Option Load))) ∧
    selectBestWorker 60 [(1, some (Load.mk 20 30)), (2, some (Load.mk 92 40))] =
      { chosen := some 1, sleptSeconds := 0, emittedHighLoad := false } ∧
    loadScore (Load.mk 20 30) = 23 ∧
    (normalWorkers [(1, some (Load.mk 20 30)), (2, some (Load.mk 92 40))] ≠ [] →
      ∃ w ∈ normalWorkers [(1, some (Load.mk 20 30)), (2, some (Load.mk 92 40))],
        selectBestWorker 60 [(1, some (Load.mk 20 30)), (2, some (Load.mk 92 40))] =
          { chosen := some w.1, sleptSeconds := 0, emittedHighLoad := false } ∧
        ∀ y ∈ normalWorkers [(1, some (Load.mk 20 30)), (2, some (Load.mk 92 40))],
          loadScore w.2 ≤ loadScore y.2) := by
  refine ⟨by simp, ?_, by norm_num [loadScore], ?_⟩
  · have h1 : ¬ isHighLoad (Load.mk 20 30) := by norm_num [isHighLoad]
    have h2 : isHighLoad (Load.mk 92 40) := by norm_num [isHighLoad]
    simp [selectBestWorker, normalWorkers, highLoadWorkers, withTelemetry,
      List.filterMap, List.filter, h1, h2, pickBest]
  · exact (select_best_worker_spec 60
      [(1, some (Load.mk 20 30)), (2, some (Load.mk 92 40))]
      (by simp) (by intro wl hwl; fin_cases hwl <;> simp)).2.1

/- ------------------------------------------------------------------ -/
/- Worker registry state machine: the heartbeat handler                -/
/- (backend/apps/engine/views/worker_views.py lines 119-272)           -/
/- ------------------------------------------------------------------ -/

/-- Durable WorkerNode status values (engine models / spec section 4.3). -/
inductive WStatus where
  | pending
  | deploying
  | online
  | offline
  | updating
  | outdated
deriving DecidableEq, Repr

open WStatus

/-- WorkerNodeViewSet.heartbeat (worker_views.py lines 119-197) together
with the status effect of _trigger_remote_agent_update (lines 199-272),
restricted to its effect on the durable status field.  Returns the final
status and the ordered list of status values written to the database
during the call.
Arguments: st is the current status; isLocal and hasIp mirror
worker.is_local and the truthiness of worker.ip_address; lockFree tells
whether the redis agent_update_lock set-if-absent succeeds (lines 210-215:
when the lock is already held the update trigger returns without writing);
agentVersion is the version field of the heartbeat body (empty when
absent) and serverVersion is settings.IMAGE_TAG. -/
def heartbeat (st : WStatus) (isLocal hasIp lockFree : Bool)
    (agentVersion serverVersion : String) : WStatus × List WStatus :=
  -- step 2 of the handler: first heartbeat moves any not-yet-online
  -- status to online (lines 161-163)
  let st1 := if st ≠ online ∧ st ≠ offline then online else st
  let w1 : List WStatus := if st ≠ online ∧ st ≠ offline then [online] else []
  -- step 3: version check (lines 165-191)
  if agentVersion ≠ "" ∧ agentVersion ≠ "unknown" then
    if agentVersion ≠ serverVersion then
      if ¬ isLocal ∧ hasIp then
        -- remote worker: _trigger_remote_agent_update (lines 199-218)
        if lockFree then (updating, w1 ++ [updating]) else (st1, w1)
      else
        -- local worker (or remote without ip): mark outdated (lines 182-186)
        if st1 ≠ outdated then (outdated, w1 ++ [outdated]) else (st1, w1)
    else
      -- version matches: promote updating/outdated back to online
      -- (lines 187-191)
      if st1 = updating ∨ st1 = outdated then (online, w1 ++ [online])
      else (st1, w1)
  else (st1, w1)

/-- C5 counterexample: a worker whose durable status is offline receives a
heartbeat whose agent version matches the server version; the handler
writes nothing and the status stays offline, not online as the claim
states (step 2 of the handler only fires for statuses outside online and
offline, and the matching-version branch only promotes updating and
outdated). -/
theorem heartbeat_offline_matching_not_online :
    heartbeat offline false false true "v1.0.19" "v1.0.19" = (offline, []) ∧
    (heartbeat offline false false true "v1.0.19" "v1.0.19").1 ≠ online := by
  constructor <;> decide

/-- C5 amended: the durable worker status advances per the state table with
one correction: an offline worker is left offline by a matching-version
heartbeat.  In detail: (r1) a first heartbeat (status pending or deploying,
any reported version) writes online as its first status write; (r2) a
heartbeat whose agent version matches the server version (and is a real
version string) moves online/updating/outdated workers to online; (r3) a
mismatched-version heartbeat moves an online remote worker (with an ip
address, acquiring the update lock) to updating; (r4) a
mismatched-version heartbeat moves an online local worker to outdated. -/
theorem heartbeat_state_table (isLocal hasIp lockFree : Bool)
    (agentVersion serverVersion : String) :
    ((∀ st, (st = pending ∨ st = deploying) →
      (heartbeat st isLocal hasIp lockFree agentVersion serverVersion).2.head?
        = some online) ∧
    (agentVersion = serverVersion →
      ∀ st, (st = online ∨ st = updating ∨ st = outdated) →
      (heartbeat st isLocal hasIp lockFree agentVersion serverVersion).1
        = online) ∧
    (agentVersion ≠ "" → agentVersion ≠ "unknown" →
      agentVersion ≠ serverVersion → isLocal = false → hasIp = true →
      lockFree = true →
      (heartbeat online isLocal hasIp lockFree agentVersion serverVersion).1
        = updating) ∧
    (agentVersion ≠ "" → agentVersion ≠ "unknown" →
      agentVersion ≠ serverVersion → isLocal = true →
      (heartbeat online isLocal hasIp lockFree agentVersion serverVersion).1
        = outdated)) := by
  refine ⟨?_, ?_, ?_, ?_⟩
  · rintro st (rfl | rfl) <;>
      simp only [heartbeat] <;>
      split <;> (try split) <;> (try split) <;> (try split)
    all_goals simp_all
  · rintro rfl st (rfl | rfl | rfl) <;> simp [heartbeat]
  · intro h1 h2 h3 h4 h5 h6
    subst h4; subst h5; subst h6
    simp [heartbeat, h1, h2, h3]
  · intro h1 h2 h3 h4
    subst h4
    simp [heartbeat, h1, h2, h3]

/-- C5 witness: concrete instances of all four rows of the amended table,
with server version v1.0.19 and agent versions v1.0.19 / v1.0.9. -/
theorem heartbeat_state_table_witness :
    (heartbeat pending false true true "v1.0.19" "v1.0.19").2.head?
        = some online ∧
    (heartbeat outdated false true true "v1.0.19" "v1.0.19").1 = online ∧
    (heartbeat online false true true "v1.0.9" "v1.0.19").1 = updating ∧
    (heartbeat online true false true "v1.0.9" "v1.0.19").1 = outdated := by
  have h := heartbeat_state_table false true true "v1.0.19" "v1.0.19"
  have h' := heartbeat_state_table false true true "v1.0.9" "v1.0.19"
  have h'' := heartbeat_state_table true false true "v1.0.9" "v1.0.19"
  refine ⟨h.1 pending (Or.inl rfl), h.2.1 rfl outdated (Or.inr (Or.inr rfl)),
    h'.2.2.1 (by decide) (by decide) (by decide) rfl rfl rfl,
    h''.2.2.2 (by decide) (by decide) (by decide) rfl⟩

/- ------------------------------------------------------------------ -/
/- Command executor: output-line sanitization                          -/
/- (backend/apps/scan/utils/command_executor.py lines 135-199, 574-595)-/
/- ------------------------------------------------------------------ -/

/-- Code points the Python str.isspace predicate accepts (and hence
str.strip removes): tab through carriage return, the C0 separators
28-31, space, NEL, and the Unicode space separators. -/
def pyIsSpace (c : Char) : Bool :=
  c.toNat ∈ [9, 10, 11, 12, 13, 28, 29, 30, 31, 32, 133, 160, 5760,
    8192, 8193, 8194, 8195, 8196, 8197, 8198, 8199, 8200, 8201, 8202,
    8232, 8233, 8239, 8287, 12288]

/-- Python str.strip: drop whitespace from both ends. -/
def pyStrip (l : List Char) : List Char :=
  ((l.dropWhile pyIsSpace).reverse.dropWhile pyIsSpace).reverse

/-- Left-to-right non-overlapping replacement of the pattern p :: ps by
repl, the semantics of Python str.replace for a non-empty pattern.  The
fuel argument only bounds the recursion; every step consumes at least one
character, so fuel equal to the input length is always enough. -/
def replaceAux (p : Char) (ps repl : List Char) : ℕ → List Char → List Char
  | 0, l => l
  | _ + 1, [] => []
  | fuel + 1, c :: rest =>
    if (p :: ps).isPrefixOf (c :: rest) then
      repl ++ replaceAux p ps repl fuel (rest.drop ps.length)
    else
      c :: replaceAux p ps repl fuel rest

/-- Python str.replace restricted to the non-empty patterns the source
uses (an empty pattern is mapped to the identity). -/
def pyReplace (pat repl l : List Char) : List Char :=
  match pat with
  | [] => l
  | p :: ps => replaceAux p ps repl l.length l

/-- The literal escape-string table of _clean_output_line
(command_executor.py lines 163-171), in source (dict-insertion) order. -/
def escapeMappings : List (List Char × List Char) :=
  [("\\x0d\\x0a".data, ['\n']),
   ("\\x0a".data, ['\n']),
   ("\\x0d".data, ['\r']),
   ("\\r\\n".data, ['\n']),
   ("\\n".data, ['\n']),
   ("\\r".data, ['\r']),
   ("\\t".data, ['\t'])]

/-- Step 3 of _clean_output_line: sequentially replace each literal escape
string by its real character (command_executor.py lines 173-175). -/
def resolveEscapes (l : List Char) : List Char :=
  escapeMappings.foldl (fun s m => pyReplace m.1 m.2 s) l

/-- Membership in the regex character class for a one-character ANSI
escape: code points 0x40-0x5A or 0x5C-0x5F (command_executor.py line 178,
first alternative of the pattern). -/
def isAnsiSingleFinal (c : Char) : Bool :=
  decide ((0x40 ≤ c.toNat ∧ c.toNat ≤ 0x5A) ∨ (0x5C ≤ c.toNat ∧ c.toNat ≤ 0x5F))

/-- CSI parameter bytes 0x30-0x3F (regex class 0-?). -/
def isCsiParam (c : Char) : Bool := decide (0x30 ≤ c.toNat ∧ c.toNat ≤ 0x3F)

/-- CSI intermediate bytes 0x20-0x2F (regex class space to slash). -/
def isCsiInter (c : Char) : Bool := decide (0x20 ≤ c.toNat ∧ c.toNat ≤ 0x2F)

/-- CSI final bytes 0x40-0x7E (regex class at-sign to tilde). -/
def isCsiFinal (c : Char) : Bool := decide (0x40 ≤ c.toNat ∧ c.toNat ≤ 0x7E)

/-- Deletion of ANSI escape sequences, the re.sub at command_executor.py
lines 178-179.  At each escape character the scanner matches either a CSI
sequence (bracket, parameters, intermediates, one final byte) or a single
final byte; on a match the whole sequence is dropped, otherwise the escape
character is kept and scanning resumes one character later, exactly as
re.sub does.  Fuel bounds the recursion; one character is consumed per
step, so the input length is always enough fuel. -/
def stripAnsiAux : ℕ → List Char → List Char
  | 0, l => l
  | _ + 1, [] => []
  | fuel + 1, c :: rest =>
    if c = '\x1b' then
      match rest with
      | '[' :: r1 =>
        match (r1.dropWhile isCsiParam).dropWhile isCsiInter with
        | f :: r4 =>
          if isCsiFinal f then stripAnsiAux fuel r4
          else c :: stripAnsiAux fuel rest
        | [] => c :: stripAnsiAux fuel rest
      | d :: r1 =>
        if isAnsiSingleFinal d then stripAnsiAux fuel r1
        else c :: stripAnsiAux fuel rest
      | [] => [c]
    else c :: stripAnsiAux fuel rest

/-- Step 4 of _clean_output_line: strip ANSI escape sequences. -/
def stripAnsi (l : List Char) : List Char := stripAnsiAux l.length l

/-- The control characters _clean_output_line deletes, in source order:
NUL, CR, BS, FF, VT (command_executor.py lines 182-186). -/
def ctrlCharsRemoved : List Char := ['\x00', '\r', '\x08', '\x0c', '\x0b']

/-- Step 5 of _clean_output_line: delete every occurrence of each control
character (a str.replace by the empty string is exactly a filter). -/
def removeCtrlChars (l : List Char) : List Char :=
  ctrlCharsRemoved.foldl (fun s c => s.filter (fun x => x ≠ c)) l

/-- CommandExecutor._clean_output_line (command_executor.py lines
135-199), translated clause by clause: strip, drop empties, resolve the
literal escape strings, strip ANSI sequences, delete the control
characters, strip again and drop empties, then optionally remove one
trailing suffix character, strip once more and drop empties.  Returns
none where the source returns None. -/
def cleanOutputLine (line : List Char) (suffixChar : Option Char) :
    Option (List Char) :=
  let l1 := pyStrip line
  if l1 = [] then none
  else
    let l5 := pyStrip (removeCtrlChars (stripAnsi (resolveEscapes l1)))
    if l5 = [] then none
    else
      match suffixChar with
      | some sc =>
        if l5.getLast? = some sc then
          let l6 := pyStrip l5.dropLast
          if l6 = [] then none else some l6
        else some l5
      | none => some l5

/-- The sanitization pipeline exactly as the specification phrases it:
trim; drop the line if empty; resolve literal escape strings; strip ANSI
escape sequences; delete NUL, CR, BS, FF and VT; trim again and drop if
now empty; and, if a suffix character was given and the line ends with
it, remove that character, trim again and drop the line if it becomes
empty. -/
def specSanitize (suffixChar : Option Char) (line : List Char) :
    Option (List Char) :=
  (if pyStrip line = [] then none else some (pyStrip line)).bind fun t1 =>
  (let t2 := pyStrip (removeCtrlChars (stripAnsi (resolveEscapes t1)))
   if t2 = [] then none else some t2).bind fun t2 =>
  match suffixChar with
  | some sc =>
    if t2.getLast? = some sc then
      (if pyStrip t2.dropLast = [] then none else some (pyStrip t2.dropLast))
    else some t2
  | none => some t2

/-- The sequence of lines execute_stream yields to its consumer
(command_executor.py lines 579-595): each raw line is cleaned and yielded
unless the cleaner returns None. -/
def executeStreamLines (suffixChar : Option Char)
    (raw : List (List Char)) : List (List Char) :=
  raw.filterMap (fun l => cleanOutputLine l suffixChar)

/-- C6: For every raw output line, the sanitization applied before the
line is yielded performs, in order: trim; drop if empty; replace literal
escape strings with their real characters; strip ANSI escape sequences;
delete NUL, CR, BS, FF and VT; trim again and drop if now empty; and, if
a suffix character was given and the line ends with it, remove that
character and trim again, dropping the line if it becomes empty: the
source function equals the staged pipeline. -/
theorem clean_output_line_pipeline (line : List Char) (sc : Option Char) :
    cleanOutputLine line sc = specSanitize sc line := by
  unfold cleanOutputLine specSanitize
  by_cases h1 : pyStrip line = []
  · simp [h1]
  · by_cases h5 :
      pyStrip (removeCtrlChars (stripAnsi (resolveEscapes (pyStrip line)))) = []
    · simp [h1, h5]
    · cases sc with
      | none => simp [h1, h5]
      | some c => simp [h1, h5]

/-- C10: _clean_output_line returns either none or a non-empty string,
and consequently execute_stream never yields an empty line. -/
theorem clean_output_line_nonempty :
    (∀ (line : List Char) (sc : Option Char) (s : List Char),
      cleanOutputLine line sc = some s → s ≠ []) ∧
    (∀ (sc : Option Char) (raw : List (List Char)) (s : List Char),
      s ∈ executeStreamLines sc raw → s ≠ []) := by
  have hmain : ∀ (line : List Char) (sc : Option Char) (s : List Char),
      cleanOutputLine line sc = some s → s ≠ [] := by
    intro line sc s h
    unfold cleanOutputLine at h
    by_cases h1 : pyStrip line = []
    · simp [h1] at h
    · simp only [h1, if_false] at h
      by_cases h5 :
        pyStrip (removeCtrlChars (stripAnsi (resolveEscapes (pyStrip line)))) = []
      · simp [h5] at h
      · simp only [h5, if_false] at h
        cases sc with
        | none =>
          simp only [Option.some.injEq] at h
          exact h ▸ h5
        | some c =>
          by_cases hend :
            (pyStrip (removeCtrlChars
              (stripAnsi (resolveEscapes (pyStrip line))))).getLast? = some c
          · simp only [hend, if_true] at h
            by_cases h6 : pyStrip (pyStrip (removeCtrlChars
                (stripAnsi (resolveEscapes (pyStrip line))))).dropLast = []
            · simp [h6] at h
            · simp only [h6, if_false, Option.some.injEq] at h
              exact h ▸ h6
          · simp only [hend, if_false, Option.some.injEq] at h
            exact h ▸ h5
  refine ⟨hmain, ?_⟩
  intro sc raw s hs
  rcases List.mem_filterMap.mp hs with ⟨l, _, hl⟩
  exact hmain l sc s hl

/-- C10 witness: a concrete line that survives the pipeline untouched,
and the corresponding stream yield. -/
theorem clean_output_line_nonempty_witness :
    cleanOutputLine "abc".data none = some "abc".data ∧
    "abc".data ∈ executeStreamLines none ["abc".data] ∧
    "abc".data ≠ ([] : List Char) := by
  have h1 : cleanOutputLine "abc".data none = some "abc".data := by decide
  refine ⟨h1, ?_, ?_⟩
  · exact List.mem_filterMap.mpr ⟨"abc".data, by simp, h1⟩
  · exact clean_output_line_nonempty.1 "abc".data none "abc".data h1

/- ------------------------------------------------------------------ -/
/- Command executor: admission control before each launch              -/
/- (backend/apps/scan/utils/command_executor.py lines 49-83, 280-282,  -/
/-  500-502, 529-531)                                                  -/
/- ------------------------------------------------------------------ -/

/-- Default of SCAN_CPU_HIGH (command_executor.py line 49). -/
def SCAN_CPU_HIGH_default : ℚ := 90

/-- Default of SCAN_MEM_HIGH (command_executor.py line 50). -/
def SCAN_MEM_HIGH_default : ℚ := 80

/-- Default of SCAN_LOAD_CHECK_INTERVAL (command_executor.py line 51). -/
def SCAN_LOAD_CHECK_INTERVAL_default : ℕ := 30

/-- Default of SCAN_COMMAND_STARTUP_DELAY (command_executor.py line 52). -/
def SCAN_COMMAND_STARTUP_DELAY_default : ℕ := 5

/-- The executor settings consulted by _wait_for_system_load. -/
structure LoadCfg where
  cpuHigh : ℚ
  memHigh : ℚ
  checkInterval : ℕ
  startupDelay : ℕ

/-- Observable steps of the pre-launch phase of execute_and_wait and
execute_stream: the startup-delay sleep, one psutil poll of host load,
the between-polls sleep, and the subprocess launch. -/
inductive ExecEvent where
  | sleepStartup (seconds : ℕ)
  | pollLoad (i : ℕ)
  | sleepInterval (seconds : ℕ)
  | launch
deriving DecidableEq, Repr

/-- The admission condition of command_executor.py line 73: the i-th host
load sample is below both thresholds. -/
def goodSample (cfg : LoadCfg) (samples : ℕ → ℚ × ℚ) (i : ℕ) : Prop :=
  (samples i).1 < cfg.cpuHigh ∧ (samples i).2 < cfg.memHigh

instance (cfg : LoadCfg) (samples : ℕ → ℚ × ℚ) (i : ℕ) :
    Decidable (goodSample cfg samples i) := by
  unfold goodSample; infer_instance

/-- The while loop of _wait_for_system_load (command_executor.py lines
69-83): poll the load; return when both thresholds are strict upper
bounds; otherwise sleep SCAN_LOAD_CHECK_INTERVAL and poll again.  The
loop body never raises; its only outcomes are to keep polling or to
return.  Fuel bounds the unrolling (none means the loop is still polling
after that many iterations); the result carries the events of the loop
and the index of the accepted sample. -/
def loadWaitEventsAux (cfg : LoadCfg) (samples : ℕ → ℚ × ℚ) :
    ℕ → ℕ → Option (List ExecEvent × ℕ)
  | 0, _ => none
  | fuel + 1, i =>
    if goodSample cfg samples i then some ([ExecEvent.pollLoad i], i)
    else (loadWaitEventsAux cfg samples fuel (i + 1)).map
      (fun r => (ExecEvent.pollLoad i ::
        ExecEvent.sleepInterval cfg.checkInterval :: r.1, r.2))

/-- _wait_for_system_load (command_executor.py lines 58-83): first the
unconditional startup-delay sleep (lines 62-63, skipped when the delay is
zero), then the polling loop. -/
def waitForSystemLoadEvents (cfg : LoadCfg) (samples : ℕ → ℚ × ℚ)
    (fuel : ℕ) : Option (List ExecEvent × ℕ) :=
  (loadWaitEventsAux cfg samples fuel 0).map
    (fun r => ((if 0 < cfg.startupDelay
        then [ExecEvent.sleepStartup cfg.startupDelay] else []) ++ r.1, r.2))

/-- The pre-launch phase of execute_and_wait (command_executor.py lines
280-282 then 323): _wait_for_system_load runs to completion before the
subprocess is started. -/
def executeAndWaitPrologue (cfg : LoadCfg) (samples : ℕ → ℚ × ℚ)
    (fuel : ℕ) : Option (List ExecEvent) :=
  (waitForSystemLoadEvents cfg samples fuel).map
    (fun r => r.1 ++ [ExecEvent.launch])

/-- The pre-launch phase of execute_stream: both the log-file branch
(command_executor.py lines 500-516) and the no-log branch (lines 529-545)
call _wait_for_system_load before subprocess.Popen. -/
def executeStreamPrologue (cfg : LoadCfg) (samples : ℕ → ℚ × ℚ)
    (fuel : ℕ) : Option (List ExecEvent) :=
  (waitForSystemLoadEvents cfg samples fuel).map
    (fun r => r.1 ++ [ExecEvent.launch])

/-- Closed form of the admission-wait event trace when sample k is the
first acceptable one: the startup sleep, then for each rejected sample a
poll followed by an interval sleep, then the accepted poll. -/
def expectedWaitEvents (cfg : LoadCfg) (k : ℕ) : List ExecEvent :=
  (if 0 < cfg.startupDelay
    then [ExecEvent.sleepStartup cfg.startupDelay] else []) ++
  ((List.range k).flatMap
    (fun j => [ExecEvent.pollLoad j,
      ExecEvent.sleepInterval cfg.checkInterval])) ++
  [ExecEvent.pollLoad k]

/-- Total seconds slept in an event trace. -/
def totalSleep (evs : List ExecEvent) : ℕ :=
  (evs.map (fun e =>
    match e with
    | ExecEvent.sleepStartup s => s
    | ExecEvent.sleepInterval s => s
    | _ => 0)).sum

lemma loadWaitEventsAux_closed (cfg : LoadCfg) (samples : ℕ → ℚ × ℚ) :
    ∀ (m i fuel : ℕ), (∀ j, j < m → ¬ goodSample cfg samples (i + j)) →
    goodSample cfg samples (i + m) → m < fuel →
    loadWaitEventsAux cfg samples fuel i =
      some ((List.range m).flatMap
          (fun j => [ExecEvent.pollLoad (i + j),
            ExecEvent.sleepInterval cfg.checkInterval]) ++
        [ExecEvent.pollLoad (i + m)], i + m) := by
  intro m
  induction m with
  | zero =>
    intro i fuel _ hgood hfuel
    rcases fuel with _ | f
    · omega
    · simp only [loadWaitEventsAux]
      rw [if_pos (by simpa using hgood)]
      simp
  | succ m ih =>
    intro i fuel hbad hgood hfuel
    rcases fuel with _ | f
    · omega
    · simp only [loadWaitEventsAux]
      rw [if_neg (by simpa using hbad 0 (Nat.succ_pos m))]
      rw [ih (i + 1) f
        (fun j hj => by
          have := hbad (j + 1) (by omega)
          simpa [Nat.add_assoc, Nat.add_comm 1 j] using this)
        (by simpa [Nat.add_assoc, Nat.add_comm 1 m] using hgood)
        (by omega)]
      simp only [Option.map_some']
      have hflat : (List.range (m + 1)).flatMap
          (fun j => [ExecEvent.pollLoad (i + j),
            ExecEvent.sleepInterval cfg.checkInterval]) =
          ExecEvent.pollLoad i :: ExecEvent.sleepInterval cfg.checkInterval ::
          (List.range m).flatMap (fun j => [ExecEvent.pollLoad (i + 1 + j),
            ExecEvent.sleepInterval cfg.checkInterval]) := by
        rw [List.range_succ_eq_map]
        have harg : ∀ j : ℕ, [ExecEvent.pollLoad (i + (j + 1)),
            ExecEvent.sleepInterval cfg.checkInterval] =
            [ExecEvent.pollLoad (i + 1 + j),
              ExecEvent.sleepInterval cfg.checkInterval] := by
          intro j
          have hj : i + (j + 1) = i + 1 + j := by omega
          rw [hj]
        simp only [List.flatMap_cons, List.flatMap_map, Function.comp,
          Nat.succ_eq_add_one, harg]
        simp
      simp only [Option.some.injEq, Prod.mk.injEq]
      refine ⟨?_, by omega⟩
      rw [hflat]
      have hlast : i + 1 + m = i + (m + 1) := by omega
      rw [hlast]
      simp

/-- C7: before every subprocess launch by execute_and_wait and
execute_stream, the executor first sleeps the configured startup delay
(when positive) and then does not launch until a polled sample has
cpu below cpuHigh and mem below memHigh; every earlier poll has a
threshold met or exceeded and is followed by a sleep of checkInterval
seconds; the launch is the final event and occurs exactly once; the
total time slept is startupDelay plus one checkInterval per rejected
poll; the loop recovers locally (the wait returns normally, it has no
error outcome); and the defaults are cpu 90, mem 80, interval 30 s,
delay 5 s. -/
theorem admission_control_before_launch (cfg : LoadCfg)
    (samples : ℕ → ℚ × ℚ) (n : ℕ)
    (hgood : goodSample cfg samples n)
    (hbad : ∀ j, j < n → ¬ goodSample cfg samples j) :
    (∀ fuel, n < fuel →
      executeAndWaitPrologue cfg samples fuel =
        some (expectedWaitEvents cfg n ++ [ExecEvent.launch]) ∧
      executeStreamPrologue cfg samples fuel =
        some (expectedWaitEvents cfg n ++ [ExecEvent.launch])) ∧
    (∀ j, j < n →
      cfg.cpuHigh ≤ (samples j).1 ∨ cfg.memHigh ≤ (samples j).2) ∧
    ((samples n).1 < cfg.cpuHigh ∧ (samples n).2 < cfg.memHigh) ∧
    ((expectedWaitEvents cfg n ++ [ExecEvent.launch]).getLast? =
        some ExecEvent.launch) ∧
    ((expectedWaitEvents cfg n ++ [ExecEvent.launch]).count
        ExecEvent.launch = 1) ∧
    (totalSleep (expectedWaitEvents cfg n ++ [ExecEvent.launch]) =
      cfg.startupDelay + n * cfg.checkInterval) ∧
    (SCAN_CPU_HIGH_default = 90 ∧ SCAN_MEM_HIGH_default = 80 ∧
      SCAN_LOAD_CHECK_INTERVAL_default = 30 ∧
      SCAN_COMMAND_STARTUP_DELAY_default = 5) := by
  have hclosed : ∀ fuel, n < fuel →
      loadWaitEventsAux cfg samples fuel 0 =
        some ((List.range n).flatMap
            (fun j => [ExecEvent.pollLoad j,
              ExecEvent.sleepInterval cfg.checkInterval]) ++
          [ExecEvent.pollLoad n], n) := by
    intro fuel hfuel
    have := loadWaitEventsAux_closed cfg samples n 0 fuel
      (fun j hj => by simpa using hbad j hj) (by simpa using hgood) hfuel
    simpa using this
  refine ⟨?_, ?_, hgood, ?_, ?_, ?_, rfl, rfl, rfl, rfl⟩
  · intro fuel hfuel
    have h := hclosed fuel hfuel
    constructor <;>
      simp [executeAndWaitPrologue, executeStreamPrologue,
        waitForSystemLoadEvents, h, expectedWaitEvents]
  · intro j hj
    have := hbad j hj
    unfold goodSample at this
    push_neg at this
    by_cases hc : cfg.cpuHigh ≤ (samples j).1
    · exact Or.inl hc
    · exact Or.inr (this (not_le.mp hc))
  · simp [expectedWaitEvents]
  · have hnol : ExecEvent.launch ∉ expectedWaitEvents cfg n := by
      intro hmem
      unfold expectedWaitEvents at hmem
      rcases List.mem_append.mp hmem with hmem | hmem
      · rcases List.mem_append.mp hmem with hmem | hmem
        · split at hmem <;> simp_all
        · rcases List.mem_flatMap.mp hmem with ⟨j, _, hj⟩
          simp_all
      · simp_all
    rw [List.count_append]
    rw [List.count_eq_zero.mpr hnol]
    simp
  · unfold totalSleep expectedWaitEvents
    simp only [List.map_append, List.sum_append]
    have h1 : ((if 0 < cfg.startupDelay
        then [ExecEvent.sleepStartup cfg.startupDelay] else []).map
          (fun e => match e with
            | ExecEvent.sleepStartup s => s
            | ExecEvent.sleepInterval s => s
            | _ => 0)).sum = cfg.startupDelay := by
      split <;> simp_all
    have h2 : ∀ m, (((List.range m).flatMap
        (fun j => [ExecEvent.pollLoad j,
          ExecEvent.sleepInterval cfg.checkInterval])).map
          (fun e => match e with
            | ExecEvent.sleepStartup s => s
            | ExecEvent.sleepInterval s => s
            | _ => 0)).sum = m * cfg.checkInterval := by
      intro m
      induction m with
      | zero => simp
      | succ m ih =>
        rw [List.range_succ]
        simp only [List.flatMap_append, List.map_append, List.sum_append, ih]
        simp [Nat.succ_mul]
    rw [h1, h2]
    simp

/-- C7 witness: thresholds at their defaults, startup delay 5, interval
30; the first sample (cpu 95, mem 50) is rejected, the second (cpu 50,
mem 50) admits the launch. -/
theorem admission_control_before_launch_witness :
    (goodSample ⟨90, 80, 30, 5⟩
      (fun i => if i = 0 then ((95 : ℚ), (50 : ℚ)) else (50, 50)) 1) ∧
    (executeAndWaitPrologue ⟨90, 80, 30, 5⟩
        (fun i => if i = 0 then ((95 : ℚ), (50 : ℚ)) else (50, 50)) 3 =
      some [ExecEvent.sleepStartup 5, ExecEvent.pollLoad 0,
        ExecEvent.sleepInterval 30, ExecEvent.pollLoad 1,
        ExecEvent.launch]) := by
  have hgood : goodSample ⟨90, 80, 30, 5⟩
      (fun i => if i = 0 then ((95 : ℚ), (50 : ℚ)) else (50, 50)) 1 := by
    norm_num [goodSample]
  have hbad : ∀ j, j < 1 → ¬ goodSample ⟨90, 80, 30, 5⟩
      (fun i => if i = 0 then ((95 : ℚ), (50 : ℚ)) else (50, 50)) j := by
    intro j hj
    interval_cases j
    norm_num [goodSample]
  have h := (admission_control_before_launch ⟨90, 80, 30, 5⟩
    (fun i => if i = 0 then ((95 : ℚ), (50 : ℚ)) else (50, 50)) 1
    hgood hbad).1 3 (by omega)
  refine ⟨hgood, ?_⟩
  rw [h.1]
  decide

/- ------------------------------------------------------------------ -/
/- Task dispatcher: submit-interval throttle                           -/
/- (backend/apps/engine/services/task_distributor.py lines 195-206,    -/
/-  442-445, 554-627)                                                  -/
/- ------------------------------------------------------------------ -/

/-- Default of the TASK_SUBMIT_INTERVAL setting
(task_distributor.py line 81). -/
def TASK_SUBMIT_INTERVAL_default : ℚ := 5

/-- TaskDistributor._wait_for_submit_interval (task_distributor.py lines
195-206) acting on the class-level _last_submit_time: when the shared
timestamp is positive and less than interval seconds old, sleep exactly
the remaining difference; then store the current time as the new shared
timestamp.  Times are seconds; the result is the pair of the seconds
slept and the submission time written back to _last_submit_time. -/
def waitForSubmitInterval (interval lastSubmit now : ℚ) : ℚ × ℚ :=
  if 0 < lastSubmit ∧ now - lastSubmit < interval then
    (interval - (now - lastSubmit), now + (interval - (now - lastSubmit)))
  else (0, now)

/-- The two dispatcher operations the claim ranges over. -/
inductive DispatchKind where
  | scanFlow
  | deleteTask
deriving DecidableEq, Repr

/-- Submission times produced by a sequence of dispatcher calls, each
given as (operation, time at which the call reaches its dispatch step).
execute_scan_flow calls _wait_for_submit_interval first
(task_distributor.py line 444), which sleeps and updates the shared
timestamp; execute_delete_task (lines 554-627) contains no call to
_wait_for_submit_interval, so it dispatches immediately and leaves the
shared timestamp untouched. -/
def runDispatches (interval : ℚ) : ℚ → List (DispatchKind × ℚ) → List ℚ
  | _, [] => []
  | last, (DispatchKind.scanFlow, now) :: rest =>
    let r := waitForSubmitInterval interval last now
    r.2 :: runDispatches interval r.2 rest
  | last, (DispatchKind.deleteTask, now) :: rest =>
    now :: runDispatches interval last rest

/-- C8 counterexample: two consecutive execute_delete_task dispatches one
second apart are submitted one second apart, far below the 5-second
interval, because execute_delete_task never consults the shared
last-submit timestamp. -/
theorem submit_interval_not_all_dispatches :
    runDispatches 5 0 [(DispatchKind.deleteTask, 10),
      (DispatchKind.deleteTask, 11)] = [10, 11] ∧
    ¬ ((5 : ℚ) ≤ 11 - 10) := by
  constructor
  · simp [runDispatches]
  · norm_num

/-- C8 amended: the throttle guards scan-flow dispatches only.  When the
shared last-submit timestamp is positive, _wait_for_submit_interval
sleeps exactly the remaining difference when less than the interval has
elapsed (and nothing otherwise), and the resulting scan-flow submission
is at least the interval after the previous one; two consecutive
scan-flow dispatches from a fresh dispatcher are therefore at least
TASK_SUBMIT_INTERVAL (default 5) seconds apart.  Delete-task dispatches
bypass the throttle entirely. -/
theorem submit_interval_scan_flow (interval lastSubmit now : ℚ) :
    (0 < lastSubmit → lastSubmit ≤ now →
      interval ≤ (waitForSubmitInterval interval lastSubmit now).2 - lastSubmit) ∧
    ((waitForSubmitInterval interval lastSubmit now).1 =
      if 0 < lastSubmit ∧ now - lastSubmit < interval
        then interval - (now - lastSubmit) else 0) ∧
    ((waitForSubmitInterval interval lastSubmit now).2 =
      now + (waitForSubmitInterval interval lastSubmit now).1) ∧
    (∀ t1 t2 : ℚ, 0 ≤ interval → 0 < t1 → t1 ≤ t2 →
      ∃ s2, runDispatches interval 0 [(DispatchKind.scanFlow, t1),
          (DispatchKind.scanFlow, t2)] = [t1, s2] ∧ interval ≤ s2 - t1) ∧
    (∀ last t, runDispatches interval last [(DispatchKind.deleteTask, t)]
      = [t]) ∧
    TASK_SUBMIT_INTERVAL_default = 5 := by
  have hstep : ∀ (l n : ℚ), 0 < l → l ≤ n →
      interval ≤ (waitForSubmitInterval interval l n).2 - l := by
    intro l n hl hln
    unfold waitForSubmitInterval
    by_cases h : 0 < l ∧ n - l < interval
    · rw [if_pos h]
      ring_nf
      linarith
    · rw [if_neg h]
      push_neg at h
      have := h hl
      linarith
  refine ⟨hstep lastSubmit now, ?_, ?_, ?_, ?_, rfl⟩
  · unfold waitForSubmitInterval
    split <;> simp
  · unfold waitForSubmitInterval
    split <;> simp
  · intro t1 t2 _ ht1 ht12
    have hfirst : waitForSubmitInterval interval 0 t1 = (0, t1) := by
      unfold waitForSubmitInterval
      rw [if_neg (by intro h; exact absurd h.1 (lt_irrefl 0))]
    refine ⟨(waitForSubmitInterval interval t1 t2).2, ?_, ?_⟩
    · simp only [runDispatches, hfirst]
    · exact hstep t1 t2 ht1 ht12
  · intro last t
    simp [runDispatches]

/-- C8 witness: interval 5, fresh timestamp, scan-flow dispatches
reaching the throttle at times 10 and 11; the second submission is
pushed to 15. -/
theorem submit_interval_scan_flow_witness :
    runDispatches 5 0 [(DispatchKind.scanFlow, 10),
      (DispatchKind.scanFlow, 11)] = [10, 15] ∧
    (∃ s2, runDispatches 5 0 [(DispatchKind.scanFlow, 10),
        (DispatchKind.scanFlow, 11)] = [10, s2] ∧ (5 : ℚ) ≤ s2 - 10) := by
  constructor
  · simp only [runDispatches, waitForSubmitInterval]
    norm_num
  · exact (submit_interval_scan_flow 5 0 10).2.2.2.1 10 11
      (by norm_num) (by norm_num) (by norm_num)

/- ------------------------------------------------------------------ -/
/- Asset store: bulk create with ignore-conflicts                      -/
/- (backend/apps/asset/repositories/asset/subdomain_repository.py,     -/
/-  host_port_mapping_repository.py; models in asset_models.py)        -/
/- ------------------------------------------------------------------ -/

section IgnoreStore

variable {K : Type} [DecidableEq K]

/-- A canonical table whose unique constraint is the whole key K; each
row carries the key and its discovered_at timestamp (auto_now_add: set
only at insert time). -/
def hasKeyG (t : List (K × ℕ)) (k : K) : Bool :=
  t.any (fun r => r.1 = k)

/-- One row of the INSERT .. ON CONFLICT DO NOTHING issued by
bulk_create with ignore_conflicts=True: a row whose key already exists
is skipped, leaving the table untouched; otherwise the row is appended
with discovered_at = now. -/
def insertIfAbsent (now : ℕ) (t : List (K × ℕ)) (k : K) : List (K × ℕ) :=
  if hasKeyG t k then t else t ++ [(k, now)]

/-- bulk_create(..., ignore_conflicts=True) over a batch of keys
(subdomain_repository.py lines 19-48 and
host_port_mapping_repository.py lines 17-67), row by row. -/
def bulkCreateIgnoreConflicts (now : ℕ) (t : List (K × ℕ))
    (b : List K) : List (K × ℕ) :=
  b.foldl (insertIfAbsent now) t

lemma hasKeyG_insertIfAbsent (now : ℕ) (t : List (K × ℕ)) (k k' : K)
    (h : hasKeyG t k = true) : hasKeyG (insertIfAbsent now t k') k = true := by
  unfold insertIfAbsent
  split
  · exact h
  · unfold hasKeyG at h ⊢
    simp only [List.any_append, Bool.or_eq_true]
    exact Or.inl h

lemma hasKeyG_bulkCreate_mono (now : ℕ) (b : List K) :
    ∀ (t : List (K × ℕ)) (k : K), hasKeyG t k = true →
    hasKeyG (bulkCreateIgnoreConflicts now t b) k = true := by
  induction b with
  | nil => intro t k h; exact h
  | cons k' rest ih =>
    intro t k h
    exact ih (insertIfAbsent now t k') k (hasKeyG_insertIfAbsent now t k k' h)

lemma hasKeyG_bulkCreate_of_mem (now : ℕ) (b : List K) :
    ∀ (t : List (K × ℕ)) (k : K), k ∈ b →
    hasKeyG (bulkCreateIgnoreConflicts now t b) k = true := by
  induction b with
  | nil => intro t k h; simp at h
  | cons k' rest ih =>
    intro t k h
    rcases List.mem_cons.mp h with h | h
    · subst h
      have hstep : bulkCreateIgnoreConflicts now t (k :: rest) =
          bulkCreateIgnoreConflicts now (insertIfAbsent now t k) rest := rfl
      rw [hstep]
      apply hasKeyG_bulkCreate_mono
      unfold insertIfAbsent
      split
      · assumption
      · unfold hasKeyG
        simp
    · exact ih _ k h

lemma insertIfAbsent_of_hasKey (now : ℕ) (t : List (K × ℕ)) (k : K)
    (h : hasKeyG t k = true) : insertIfAbsent now t k = t := by
  unfold insertIfAbsent
  rw [if_pos h]

/-- Existing rows are left completely unchanged: the result extends the
table on the right. -/
lemma bulkCreate_append (now : ℕ) (b : List K) :
    ∀ t : List (K × ℕ), ∃ u, bulkCreateIgnoreConflicts now t b = t ++ u := by
  induction b with
  | nil => intro t; exact ⟨[], by simp [bulkCreateIgnoreConflicts]⟩
  | cons k rest ih =>
    intro t
    have hstep : bulkCreateIgnoreConflicts now t (k :: rest) =
        bulkCreateIgnoreConflicts now (insertIfAbsent now t k) rest := rfl
    by_cases h : hasKeyG t k = true
    · rcases ih t with ⟨u, hu⟩
      refine ⟨u, ?_⟩
      rw [hstep, insertIfAbsent_of_hasKey _ _ _ h, hu]
    · rcases ih (t ++ [(k, now)]) with ⟨u, hu⟩
      refine ⟨(k, now) :: u, ?_⟩
      rw [hstep]
      have habs : insertIfAbsent now t k = t ++ [(k, now)] := by
        unfold insertIfAbsent; rw [if_neg h]
      rw [habs, hu, List.append_assoc]
      rfl

/-- Repeating an ignore-conflicts bulk create is a no-op: every batch key
is present after the first run, so the second run skips every row. -/
lemma bulkCreate_idempotent (now1 now2 : ℕ) (b : List K) :
    ∀ t : List (K × ℕ),
    bulkCreateIgnoreConflicts now2 (bulkCreateIgnoreConflicts now1 t b) b =
      bulkCreateIgnoreConflicts now1 t b := by
  induction b with
  | nil => intro t; rfl
  | cons k rest ih =>
    intro t
    have h1 : bulkCreateIgnoreConflicts now1 t (k :: rest) =
        bulkCreateIgnoreConflicts now1 (insertIfAbsent now1 t k) rest := rfl
    have hpresent : hasKeyG
        (bulkCreateIgnoreConflicts now1 (insertIfAbsent now1 t k) rest) k
          = true := by
      apply hasKeyG_bulkCreate_mono
      unfold insertIfAbsent
      split
      · assumption
      · unfold hasKeyG
        simp
    calc bulkCreateIgnoreConflicts now2
          (bulkCreateIgnoreConflicts now1 t (k :: rest)) (k :: rest)
        = bulkCreateIgnoreConflicts now2
            (insertIfAbsent now2
              (bulkCreateIgnoreConflicts now1 (insertIfAbsent now1 t k) rest)
              k) rest := by rw [h1]; rfl
      _ = bulkCreateIgnoreConflicts now2
            (bulkCreateIgnoreConflicts now1 (insertIfAbsent now1 t k) rest)
            rest := by rw [insertIfAbsent_of_hasKey _ _ _ hpresent]
      _ = bulkCreateIgnoreConflicts now1 (insertIfAbsent now1 t k) rest :=
            ih (insertIfAbsent now1 t k)
      _ = bulkCreateIgnoreConflicts now1 t (k :: rest) := h1.symm

end IgnoreStore

/-- Unique key of the Subdomain model: (target, name)
(asset_models.py lines 38-44); a Subdomain row has no other payload
besides discovered_at. -/
structure SubdomainKey where
  targetId : ℕ
  name : String
deriving DecidableEq, Repr

/-- Unique key of the HostPortMapping model: (target, host, ip, port)
(asset_models.py lines 388-394); a HostPortMapping row has no other
payload besides discovered_at. -/
structure HPMKey where
  targetId : ℕ
  host : String
  ip : String
  port : ℤ
deriving DecidableEq, Repr

/-- The port bounds declared on HostPortMapping.port by
MinValueValidator(1) and MaxValueValidator(65535)
(asset_models.py lines 360-367). -/
def portWithinValidators (port : ℤ) : Prop := 1 ≤ port ∧ port ≤ 65535

instance (port : ℤ) : Decidable (portWithinValidators port) := by
  unfold portWithinValidators; infer_instance

/-- C9 evaluation at the failing input: Django bulk_create issues a
direct INSERT and never runs field validators (they only run under
full_clean or model forms), and the model declares no database check
constraint on port; so bulk_create_ignore_conflicts persists a
HostPortMapping row with port 0, violating the declared 1..65535
validator bounds. -/
theorem hpm_bulk_create_port_unchecked :
    bulkCreateIgnoreConflicts 0 ([] : List (HPMKey × ℕ))
        [⟨1, "example.com", "1.2.3.4", 0⟩] =
      [(⟨1, "example.com", "1.2.3.4", 0⟩, 0)] ∧
    ∃ r ∈ bulkCreateIgnoreConflicts 0 ([] : List (HPMKey × ℕ))
        [⟨1, "example.com", "1.2.3.4", 0⟩],
      ¬ portWithinValidators r.1.port := by
  constructor
  · decide
  · refine ⟨(⟨1, "example.com", "1.2.3.4", 0⟩, 0), by decide, by decide⟩

/- ------------------------------------------------------------------ -/
/- Asset store: Directory bulk upsert                                  -/
/- (backend/apps/asset/repositories/asset/directory_repository.py      -/
/-  lines 20-70; model Directory in asset_models.py lines 245-324)     -/
/- ------------------------------------------------------------------ -/

/-- Unique key of the Directory model: (website, url)
(asset_models.py lines 318-324). -/
structure DirKey where
  websiteId : ℕ
  url : String
deriving DecidableEq, Repr

/-- The seven fields listed in update_fields of the Directory upsert
(directory_repository.py lines 58-61): target, status, content_length,
words, lines, content_type, duration. -/
structure DirVals where
  targetId : Option ℕ
  status : Option ℤ
  contentLength : Option ℤ
  words : Option ℤ
  lineCount : Option ℤ
  contentType : String
  duration : Option ℤ
deriving DecidableEq, Repr

/-- One Directory table row: key, updatable fields, and discovered_at
(auto_now_add: written only at insert, absent from update_fields). -/
@[ext]
structure DirRow where
  key : DirKey
  vals : DirVals
  discoveredAt : ℕ
deriving DecidableEq, Repr

/-- One row of the batch handed to the INSERT .. ON CONFLICT DO UPDATE. -/
abbrev DirItem := DirKey × DirVals

/-- A key is present in the Directory table. -/
def dirHasKey (t : List DirRow) (k : DirKey) : Bool :=
  t.any (fun r => r.key = k)

/-- One row of the Directory upsert (directory_repository.py lines
53-63): on a (website, url) conflict the seven update_fields are
overwritten in place and discovered_at is preserved; otherwise a new row
is appended with discovered_at = now. -/
def dirUpsertRow (now : ℕ) (t : List DirRow) (it : DirItem) : List DirRow :=
  if dirHasKey t it.1 then
    t.map (fun r => if r.key = it.1 then { r with vals := it.2 } else r)
  else t ++ [{ key := it.1, vals := it.2, discoveredAt := now }]

/-- DjangoDirectoryRepository.bulk_upsert over an already-converted
batch, row by row in batch order. -/
def dirBulkUpsert (now : ℕ) (t : List DirRow) (b : List DirItem) :
    List DirRow :=
  b.foldl (dirUpsertRow now) t

/-- The last item of the batch carrying the given key; the value that
wins the conflict resolution for that key. -/
def findLastItem : List DirItem → DirKey → Option DirItem
  | [], _ => none
  | it :: rest, k =>
    match findLastItem rest k with
    | some r => some r
    | none => if it.1 = k then some it else none

lemma findLastItem_eq_none {b : List DirItem} {k : DirKey}
    (h : findLastItem b k = none) : ∀ it ∈ b, it.1 ≠ k := by
  induction b with
  | nil => intro it hit; simp at hit
  | cons r rest ih =>
    intro it hit
    unfold findLastItem at h
    rcases hfl : findLastItem rest k with _ | q
    · rw [hfl] at h
      rcases List.mem_cons.mp hit with hit | hit
      · subst hit
        intro hk
        rw [if_pos hk] at h
        exact Option.some_ne_none _ h
      · exact ih hfl it hit
    · rw [hfl] at h
      exact absurd h (Option.some_ne_none _)

lemma findLastItem_cons_of_mem_rest {r : DirItem} {rest : List DirItem}
    {k : DirKey} {q : DirItem} (h : findLastItem rest k = some q) :
    findLastItem (r :: rest) k = some q := by
  unfold findLastItem
  rw [h]

lemma dirHasKey_upsertRow (now : ℕ) (t : List DirRow) (it : DirItem)
    (k : DirKey) (h : dirHasKey t k = true) :
    dirHasKey (dirUpsertRow now t it) k = true := by
  unfold dirUpsertRow
  split
  · unfold dirHasKey at h ⊢
    rcases List.any_eq_true.mp h with ⟨r, hr, hk⟩
    apply List.any_eq_true.mpr
    refine ⟨if r.key = it.1 then { r with vals := it.2 } else r,
      List.mem_map.mpr ⟨r, hr, rfl⟩, ?_⟩
    split <;> simpa using hk
  · unfold dirHasKey at h ⊢
    simp only [List.any_append, Bool.or_eq_true]
    exact Or.inl h

lemma dirHasKey_upsertRow_self (now : ℕ) (t : List DirRow) (it : DirItem) :
    dirHasKey (dirUpsertRow now t it) it.1 = true := by
  unfold dirUpsertRow
  split
  · rename_i h
    unfold dirHasKey at h ⊢
    rcases List.any_eq_true.mp h with ⟨r, hr, hk⟩
    apply List.any_eq_true.mpr
    refine ⟨if r.key = it.1 then { r with vals := it.2 } else r,
      List.mem_map.mpr ⟨r, hr, rfl⟩, ?_⟩
    rw [if_pos (of_decide_eq_true hk)]
    simp only [decide_eq_true_eq]
    exact of_decide_eq_true hk
  · unfold dirHasKey
    simp

lemma dirHasKey_bulk_mono (now : ℕ) (b : List DirItem) :
    ∀ (t : List DirRow) (k : DirKey), dirHasKey t k = true →
    dirHasKey (dirBulkUpsert now t b) k = true := by
  induction b with
  | nil => intro t k h; exact h
  | cons it rest ih =>
    intro t k h
    exact ih (dirUpsertRow now t it) k (dirHasKey_upsertRow now t it k h)

lemma dirHasKey_bulk_of_mem (now : ℕ) (b : List DirItem) :
    ∀ (t : List DirRow) (it : DirItem), it ∈ b →
    dirHasKey (dirBulkUpsert now t b) it.1 = true := by
  induction b with
  | nil => intro t it h; simp at h
  | cons r rest ih =>
    intro t it h
    have hstep : dirBulkUpsert now t (r :: rest) =
        dirBulkUpsert now (dirUpsertRow now t r) rest := rfl
    rcases List.mem_cons.mp h with h | h
    · subst h
      rw [hstep]
      exact dirHasKey_bulk_mono now rest _ _
        (dirHasKey_upsertRow_self now t it)
    · rw [hstep]
      exact ih _ it h

/-- Rows whose key never occurs in the batch come from the original
table unchanged. -/
lemma dirBulk_frame (now : ℕ) (b : List DirItem) :
    ∀ (t : List DirRow) (x : DirRow), x ∈ dirBulkUpsert now t b →
    (∀ it ∈ b, it.1 ≠ x.key) → x ∈ t := by
  induction b with
  | nil => intro t x h _; exact h
  | cons r rest ih =>
    intro t x h hne
    have hx : x ∈ dirUpsertRow now t r :=
      ih (dirUpsertRow now t r) x h
        (fun it hit => hne it (List.mem_cons_of_mem _ hit))
    have hr : r.1 ≠ x.key := hne r (List.mem_cons_self _ _)
    unfold dirUpsertRow at hx
    split at hx
    · rcases List.mem_map.mp hx with ⟨x₀, hx₀, hfx⟩
      by_cases hk : x₀.key = r.1
      · rw [if_pos hk] at hfx
        exfalso
        apply hr
        rw [← hfx]
        exact hk.symm
      · rw [if_neg hk] at hfx
        exact hfx ▸ hx₀
    · rcases List.mem_append.mp hx with hx | hx
      · exact hx
      · exfalso
        apply hr
        have := List.mem_singleton.mp hx
        rw [this]

/-- After a bulk upsert, every row whose key occurs in the batch holds
the values of the last batch item with that key. -/
lemma dirBulk_reflects (now : ℕ) (b : List DirItem) :
    ∀ (t : List DirRow) (x : DirRow), x ∈ dirBulkUpsert now t b →
    ∀ it, findLastItem b x.key = some it → x.vals = it.2 := by
  induction b with
  | nil => intro t x _ it hit; simp [findLastItem] at hit
  | cons hd rest ih =>
    intro t x hx it hit
    have hstep : dirBulkUpsert now t (hd :: rest) =
        dirBulkUpsert now (dirUpsertRow now t hd) rest := rfl
    rw [hstep] at hx
    rcases hfl : findLastItem rest x.key with _ | q
    · -- the key of x does not occur in rest: the winning item is hd and
      -- the row was written when hd was processed
      unfold findLastItem at hit
      rw [hfl] at hit
      by_cases hk : hd.1 = x.key
      · rw [if_pos hk] at hit
        have hit' : it = hd := by
          injection hit with h
          exact h.symm
        rw [hit']
        have hxin : x ∈ dirUpsertRow now t hd :=
          dirBulk_frame now rest _ x hx (findLastItem_eq_none hfl)
        unfold dirUpsertRow at hxin
        split at hxin
        · rcases List.mem_map.mp hxin with ⟨x₀, hx₀, hfx⟩
          by_cases hk0 : x₀.key = hd.1
          · rw [if_pos hk0] at hfx
            rw [← hfx]
          · rw [if_neg hk0] at hfx
            exfalso
            apply hk0
            rw [hfx, hk]
        · rename_i hno
          rcases List.mem_append.mp hxin with hxin2 | hxin2
          · exfalso
            apply hno
            unfold dirHasKey
            apply List.any_eq_true.mpr
            exact ⟨x, hxin2, by simpa using hk.symm⟩
          · have hx1 := List.mem_singleton.mp hxin2
            rw [hx1]
      · rw [if_neg hk] at hit
        simp at hit
    · have hq : it = q := by
        rw [findLastItem_cons_of_mem_rest hfl] at hit
        injection hit with h
        exact h.symm
      rw [hq]
      exact ih _ x hx q hfl

/-- Relation between a table T and the table S obtained from T by a bulk
upsert of batch b: keys and discovered_at match pointwise, rows whose key
occurs in b carry the values of the last occurrence, and rows whose key
does not occur are identical. -/
def RelAfter (b : List DirItem) (x y : DirRow) : Prop :=
  x.key = y.key ∧ x.discoveredAt = y.discoveredAt ∧
  (∀ q, findLastItem b x.key = some q → y.vals = q.2) ∧
  (findLastItem b x.key = none → x = y)

lemma relAfter_step (hd : DirItem) (rest : List DirItem) (x y : DirRow)
    (h : RelAfter (hd :: rest) x y) :
    RelAfter rest (if x.key = hd.1 then { x with vals := hd.2 } else x) y := by
  obtain ⟨hkey, hdat, hval, hid⟩ := h
  by_cases hk : x.key = hd.1
  · rw [if_pos hk]
    have hkproj : ({ x with vals := hd.2 } : DirRow).key = x.key := rfl
    have hdproj : ({ x with vals := hd.2 } : DirRow).discoveredAt =
        x.discoveredAt := rfl
    refine ⟨hkproj.trans hkey, hdproj.trans hdat, ?_, ?_⟩
    · intro q hq
      rw [hkproj] at hq
      exact hval q (findLastItem_cons_of_mem_rest hq)
    · intro hnone
      rw [hkproj] at hnone
      have hcons : findLastItem (hd :: rest) x.key = some hd := by
        unfold findLastItem
        rw [hnone, if_pos hk.symm]
      have hv := hval hd hcons
      ext
      · exact hkey
      · rw [hv]
      · exact hdat
  · rw [if_neg hk]
    have hsame : findLastItem (hd :: rest) x.key = findLastItem rest x.key := by
      rcases hfl : findLastItem rest x.key with _ | q
      · have hu : findLastItem (hd :: rest) x.key =
            (if hd.1 = x.key then some hd else none) := by
          unfold findLastItem
          rw [hfl]
        rw [hu, if_neg (fun h => hk h.symm)]
      · rw [findLastItem_cons_of_mem_rest hfl]
    refine ⟨hkey, hdat, ?_, ?_⟩
    · intro q hq
      exact hval q (hsame.trans hq)
    · intro hnone
      exact hid (hsame.trans hnone)

lemma dirHasKey_map_update (t : List DirRow) (hd : DirItem) (k : DirKey) :
    dirHasKey (t.map (fun r =>
      if r.key = hd.1 then { r with vals := hd.2 } else r)) k =
    dirHasKey t k := by
  unfold dirHasKey
  rw [List.any_map]
  congr 1
  funext r
  by_cases hk : r.key = hd.1
  · simp only [Function.comp_apply, if_pos hk]
  · simp only [Function.comp_apply, if_neg hk]

/-- Bulk-upserting a batch into a table that already reflects it (in the
sense of RelAfter against a target table S, with every batch key present)
produces exactly S. -/
lemma dirBulk_absorb (now2 : ℕ) (b : List DirItem) :
    ∀ (T S : List DirRow), (∀ it ∈ b, dirHasKey T it.1 = true) →
    List.Forall₂ (RelAfter b) T S → dirBulkUpsert now2 T b = S := by
  induction b with
  | nil =>
    intro T S _ hrel
    have heq : List.Forall₂ (· = ·) T S := by
      apply hrel.imp
      intro a b h
      exact h.2.2.2 rfl
    have : T = S := by
      rw [← List.forall₂_eq_eq_eq]
      exact heq
    exact this
  | cons hd rest ih =>
    intro T S hkeys hrel
    have hhd : dirHasKey T hd.1 = true := hkeys hd (List.mem_cons_self _ _)
    have hstep : dirBulkUpsert now2 T (hd :: rest) =
        dirBulkUpsert now2 (dirUpsertRow now2 T hd) rest := rfl
    rw [hstep]
    have hmap : dirUpsertRow now2 T hd = T.map (fun r =>
        if r.key = hd.1 then { r with vals := hd.2 } else r) := by
      unfold dirUpsertRow
      rw [if_pos hhd]
    rw [hmap]
    apply ih
    · intro it hit
      rw [dirHasKey_map_update]
      exact hkeys it (List.mem_cons_of_mem _ hit)
    · rw [List.forall₂_map_left_iff]
      apply hrel.imp
      intro x y hxy
      exact relAfter_step hd rest x y hxy

/-- The Directory bulk upsert already reflects its own batch. -/
lemma dirBulk_self_rel (now : ℕ) (t : List DirRow) (b : List DirItem) :
    List.Forall₂ (RelAfter b) (dirBulkUpsert now t b)
      (dirBulkUpsert now t b) := by
  apply List.forall₂_same.mpr
  intro x hx
  exact ⟨rfl, rfl, fun q hq => dirBulk_reflects now b t x hx q hq,
    fun _ => rfl⟩

/-- Running the same Directory batch twice yields the same table as
running it once: the second run overwrites every conflicting row with
equal values. -/
lemma dirBulk_idempotent (now1 now2 : ℕ) (t : List DirRow)
    (b : List DirItem) :
    dirBulkUpsert now2 (dirBulkUpsert now1 t b) b =
      dirBulkUpsert now1 t b :=
  dirBulk_absorb now2 b _ _
    (fun it hit => dirHasKey_bulk_of_mem now1 b t it hit)
    (dirBulk_self_rel now1 t b)

/-- Every row of a bulk-upsert result either descends from a row of the
original table with the same key and discovered_at, or is a new row
stamped with the batch timestamp, keyed by some batch item, for a key the
table did not contain. -/
lemma dirBulk_member_origin (now : ℕ) (b : List DirItem) :
    ∀ (t : List DirRow) (x : DirRow), x ∈ dirBulkUpsert now t b →
    (∃ x₀ ∈ t, x.key = x₀.key ∧ x.discoveredAt = x₀.discoveredAt) ∨
    (x.discoveredAt = now ∧ (∃ it ∈ b, it.1 = x.key) ∧
      dirHasKey t x.key = false) := by
  induction b with
  | nil =>
    intro t x hx
    exact Or.inl ⟨x, hx, rfl, rfl⟩
  | cons hd rest ih =>
    intro t x hx
    have hstep : dirBulkUpsert now t (hd :: rest) =
        dirBulkUpsert now (dirUpsertRow now t hd) rest := rfl
    rw [hstep] at hx
    rcases ih (dirUpsertRow now t hd) x hx with ⟨x₁, hx₁, hkeq, hdeq⟩ | hnew
    · unfold dirUpsertRow at hx₁
      split at hx₁
      · rcases List.mem_map.mp hx₁ with ⟨x₀, hx₀, hfx⟩
        refine Or.inl ⟨x₀, hx₀, ?_, ?_⟩
        · rw [hkeq, ← hfx]
          split <;> rfl
        · rw [hdeq, ← hfx]
          split <;> rfl
      · rename_i hno
        rcases List.mem_append.mp hx₁ with hmem | hmem
        · exact Or.inl ⟨x₁, hmem, hkeq, hdeq⟩
        · have hx1 := List.mem_singleton.mp hmem
          refine Or.inr ⟨?_, ⟨hd, List.mem_cons_self _ _, ?_⟩, ?_⟩
          · rw [hdeq, hx1]
          · rw [hkeq, hx1]
          · rw [hkeq, hx1]
            show dirHasKey t hd.1 = false
            cases hcase : dirHasKey t hd.1
            · rfl
            · exact absurd hcase hno
    · obtain ⟨hdeq, ⟨it, hit, hkeq⟩, hnk⟩ := hnew
      have hnk' : dirHasKey t x.key = false := by
        by_contra hcon
        have : dirHasKey t x.key = true := by
          revert hcon
          cases dirHasKey t x.key <;> simp
        have := dirHasKey_upsertRow now t hd x.key this
        rw [this] at hnk
        simp at hnk
      exact Or.inr ⟨hdeq, ⟨it, List.mem_cons_of_mem _ hit, hkeq⟩, hnk'⟩

/-- Pointwise relation: same key and same discovered_at. -/
def KeyDat (x y : DirRow) : Prop :=
  x.key = y.key ∧ x.discoveredAt = y.discoveredAt

lemma keyDat_trans {a b c : DirRow} (h1 : KeyDat a b) (h2 : KeyDat b c) :
    KeyDat a c :=
  ⟨h1.1.trans h2.1, h1.2.trans h2.2⟩

lemma forall₂_keyDat_trans :
    ∀ {l1 l2 l3 : List DirRow}, List.Forall₂ KeyDat l1 l2 →
    List.Forall₂ KeyDat l2 l3 → List.Forall₂ KeyDat l1 l3 := by
  intro l1 l2 l3 h1
  induction h1 generalizing l3 with
  | nil =>
    intro h2
    cases h2
    exact List.Forall₂.nil
  | cons hab htail ih =>
    intro h2
    cases h2 with
    | cons hbc htail2 =>
      exact List.Forall₂.cons (keyDat_trans hab hbc) (ih htail2)

lemma dirUpsertRow_length_le (now : ℕ) (t : List DirRow) (it : DirItem) :
    t.length ≤ (dirUpsertRow now t it).length := by
  unfold dirUpsertRow
  split
  · rw [List.length_map]
  · rw [List.length_append]
    omega

/-- The rows that pre-existed a bulk upsert keep their position, their
key and their discovered_at: the first t.length rows of the result agree
with t on key and discovered_at. -/
lemma dirBulk_take_keyDat (now : ℕ) (b : List DirItem) :
    ∀ t : List DirRow,
    List.Forall₂ KeyDat t ((dirBulkUpsert now t b).take t.length) := by
  induction b with
  | nil =>
    intro t
    have : dirBulkUpsert now t [] = t := rfl
    rw [this, List.take_length]
    exact List.forall₂_same.mpr (fun x _ => ⟨rfl, rfl⟩)
  | cons hd rest ih =>
    intro t
    have hstep : dirBulkUpsert now t (hd :: rest) =
        dirBulkUpsert now (dirUpsertRow now t hd) rest := rfl
    rw [hstep]
    have h1 : List.Forall₂ KeyDat t
        ((dirUpsertRow now t hd).take t.length) := by
      unfold dirUpsertRow
      split
      · have hlen : t.length = (t.map (fun r =>
            if r.key = hd.1 then { r with vals := hd.2 } else r)).length := by
          rw [List.length_map]
        rw [hlen, List.take_length]
        rw [List.forall₂_map_right_iff]
        apply List.forall₂_same.mpr
        intro x _
        constructor
        · split <;> rfl
        · split <;> rfl
      · rw [List.take_left]
        exact List.forall₂_same.mpr (fun x _ => ⟨rfl, rfl⟩)
    have h2 := ih (dirUpsertRow now t hd)
    have h3 := List.forall₂_take t.length h2
    rw [List.take_take, min_eq_left (dirUpsertRow_length_le now t hd)] at h3
    exact forall₂_keyDat_trans h1 h3

/-- One ingestion step of the canonical Directory table in a history of
timestamped batches. -/
def dirStep (t : List DirRow) (nb : ℕ × List DirItem) : List DirRow :=
  dirBulkUpsert nb.1 t nb.2

/-- The canonical Directory table after a whole history of upserted
batches, starting from the empty table. -/
def runDirHistory (hist : List (ℕ × List DirItem)) : List DirRow :=
  hist.foldl dirStep []

/-- A key occurs in a batch. -/
def keyInBatch (b : List DirItem) (k : DirKey) : Bool :=
  b.any (fun it => it.1 = k)

/-- The timestamp of the first batch of the history that contains the
key: the moment the key was first inserted. -/
def firstInsertTime : List (ℕ × List DirItem) → DirKey → Option ℕ
  | [], _ => none
  | nb :: rest, k =>
    if keyInBatch nb.2 k then some nb.1 else firstInsertTime rest k

lemma runDirHistory_aux :
    ∀ (hist : List (ℕ × List DirItem)) (t : List DirRow) (x : DirRow),
    x ∈ hist.foldl dirStep t →
    (∃ x₀ ∈ t, x.key = x₀.key ∧ x.discoveredAt = x₀.discoveredAt) ∨
    (dirHasKey t x.key = false ∧
      firstInsertTime hist x.key = some x.discoveredAt) := by
  intro hist
  induction hist with
  | nil =>
    intro t x hx
    exact Or.inl ⟨x, hx, rfl, rfl⟩
  | cons nb rest ih =>
    intro t x hx
    have hstep : (nb :: rest).foldl dirStep t =
        rest.foldl dirStep (dirBulkUpsert nb.1 t nb.2) := rfl
    rw [hstep] at hx
    rcases ih (dirBulkUpsert nb.1 t nb.2) x hx with ⟨x₁, hx₁, hkeq, hdeq⟩ | hr
    · rcases dirBulk_member_origin nb.1 nb.2 t x₁ hx₁ with
        ⟨x₀, hx₀, hk0, hd0⟩ | ⟨hdnew, ⟨it, hit, hkit⟩, hnk⟩
      · exact Or.inl ⟨x₀, hx₀, hkeq.trans hk0, hdeq.trans hd0⟩
      · refine Or.inr ⟨by rw [hkeq]; exact hnk, ?_⟩
        unfold firstInsertTime
        have hkb : keyInBatch nb.2 x.key = true := by
          unfold keyInBatch
          apply List.any_eq_true.mpr
          exact ⟨it, hit, by simp [hkit, hkeq]⟩
        rw [if_pos hkb, hdeq, hdnew]
    · obtain ⟨hnk, hfit⟩ := hr
      have hnk' : dirHasKey t x.key = false := by
        by_contra hcon
        have htrue : dirHasKey t x.key = true := by
          revert hcon
          cases dirHasKey t x.key <;> simp
        have := dirHasKey_bulk_mono nb.1 nb.2 t x.key htrue
        rw [this] at hnk
        simp at hnk
      have hkb : keyInBatch nb.2 x.key = false := by
        by_contra hcon
        have htrue : keyInBatch nb.2 x.key = true := by
          revert hcon
          cases keyInBatch nb.2 x.key <;> simp
        rcases List.any_eq_true.mp htrue with ⟨it, hit, hkit⟩
        have hkit' : it.1 = x.key := of_decide_eq_true hkit
        have := dirHasKey_bulk_of_mem nb.1 nb.2 t it hit
        rw [hkit'] at this
        rw [this] at hnk
        simp at hnk
      refine Or.inr ⟨hnk', ?_⟩
      unfold firstInsertTime
      rw [if_neg (by rw [hkb]; exact Bool.false_ne_true), hfit]

/-- Over any history of batches, discovered_at always equals the
timestamp of the batch that first inserted the key. -/
lemma runDirHistory_discoveredAt (hist : List (ℕ × List DirItem))
    (x : DirRow) (hx : x ∈ runDirHistory hist) :
    firstInsertTime hist x.key = some x.discoveredAt := by
  rcases runDirHistory_aux hist [] x hx with ⟨x₀, hx₀, _⟩ | ⟨_, h⟩
  · simp at hx₀
  · exact h

/-- DirectoryDTO as consumed by DjangoDirectoryRepository.bulk_upsert
(directory_repository.py lines 38-51). -/
structure DirectoryDTO where
  websiteId : ℕ
  targetId : Option ℕ
  url : String
  status : Option ℤ
  contentLength : Option ℤ
  words : Option ℤ
  lineCount : Option ℤ
  contentType : Option String
  duration : Option ℤ
deriving DecidableEq, Repr

/-- Row construction in bulk_upsert (directory_repository.py lines
38-51): each DTO becomes a Directory model instance; content_type falls
back to the empty string (item.content_type or empty). -/
def dtoToItem (d : DirectoryDTO) : DirItem :=
  (⟨d.websiteId, d.url⟩,
   ⟨d.targetId, d.status, d.contentLength, d.words, d.lineCount,
    d.contentType.getD "", d.duration⟩)

/-- DjangoDirectoryRepository.bulk_upsert (directory_repository.py lines
20-70): return at once on an empty batch, otherwise run the conflict
upsert over the converted rows. -/
def dirRepoBulkUpsert (now : ℕ) (t : List DirRow)
    (dtos : List DirectoryDTO) : List DirRow :=
  if dtos = [] then t else dirBulkUpsert now t (dtos.map dtoToItem)

/-- DirectoryService.bulk_upsert (directory_service.py lines 19-38):
empty batches short-circuit, otherwise delegate to the repository. -/
def dirServiceBulkUpsert (now : ℕ) (t : List DirRow)
    (dtos : List DirectoryDTO) : List DirRow :=
  if dtos = [] then t else dirRepoBulkUpsert now t dtos

/-- C2: in a Directory bulk upsert, a conflicting row has exactly the
fields target, status, content_length, words, lines, content_type and
duration updated (to the last conflicting batch values) while its key and
discovered_at are unchanged, new rows are stamped with the insert
timestamp, and hence over any history of upserts starting from an empty
table, discovered_at always equals the timestamp of the batch that first
inserted the key. -/
theorem directory_upsert_preserves_discovered_at :
    (∀ (now : ℕ) (t : List DirRow) (b : List DirItem),
      List.Forall₂ KeyDat t ((dirBulkUpsert now t b).take t.length)) ∧
    (∀ (now : ℕ) (t : List DirRow) (b : List DirItem),
      ∀ x ∈ dirBulkUpsert now t b, ∀ q, findLastItem b x.key = some q →
        x.vals = q.2) ∧
    (∀ (now : ℕ) (t : List DirRow) (b : List DirItem),
      ∀ x ∈ dirBulkUpsert now t b, dirHasKey t x.key = false →
        x.discoveredAt = now) ∧
    (∀ (hist : List (ℕ × List DirItem)), ∀ x ∈ runDirHistory hist,
      firstInsertTime hist x.key = some x.discoveredAt) := by
  refine ⟨?_, ?_, ?_, ?_⟩
  · intro now t b
    exact dirBulk_take_keyDat now b t
  · intro now t b x hx q hq
    exact dirBulk_reflects now b t x hx q hq
  · intro now t b x hx hnk
    rcases dirBulk_member_origin now b t x hx with ⟨x₀, hx₀, hk0, _⟩ | hr
    · exfalso
      have : dirHasKey t x.key = true := by
        unfold dirHasKey
        apply List.any_eq_true.mpr
        exact ⟨x₀, hx₀, by simp [hk0]⟩
      rw [this] at hnk
      simp at hnk
    · exact hr.1
  · intro hist x hx
    exact runDirHistory_discoveredAt hist x hx

/-- C2 witness: the key (website 1, url /a) is inserted at time 5 with
status 200 and upserted at time 9 with status 404; the final row has the
new status but discovered_at 5, and firstInsertTime confirms it. -/
theorem directory_upsert_preserves_discovered_at_witness :
    runDirHistory
        [(5, [(⟨1, "/a"⟩, ⟨some 1, some 200, none, none, none, "", none⟩)]),
         (9, [(⟨1, "/a"⟩, ⟨some 1, some 404, none, none, none, "", none⟩)])] =
      [{ key := ⟨1, "/a"⟩,
         vals := ⟨some 1, some 404, none, none, none, "", none⟩,
         discoveredAt := 5 }] ∧
    firstInsertTime
        [(5, [(⟨1, "/a"⟩, ⟨some 1, some 200, none, none, none, "", none⟩)]),
         (9, [(⟨1, "/a"⟩, ⟨some 1, some 404, none, none, none, "", none⟩)])]
        (⟨1, "/a"⟩ : DirKey) = some 5 := by
  have hrun : runDirHistory
      [(5, [(⟨1, "/a"⟩, ⟨some 1, some 200, none, none, none, "", none⟩)]),
       (9, [(⟨1, "/a"⟩, ⟨some 1, some 404, none, none, none, "", none⟩)])] =
      [{ key := ⟨1, "/a"⟩,
         vals := ⟨some 1, some 404, none, none, none, "", none⟩,
         discoveredAt := 5 }] := by decide
  refine ⟨hrun, ?_⟩
  have hx : DirRow.mk ⟨1, "/a"⟩ ⟨some 1, some 404, none, none, none, "", none⟩
      5 ∈ runDirHistory
      [(5, [(⟨1, "/a"⟩, ⟨some 1, some 200, none, none, none, "", none⟩)]),
       (9, [(⟨1, "/a"⟩, ⟨some 1, some 404, none, none, none, "", none⟩)])] := by
    rw [hrun]
    exact List.mem_singleton.mpr rfl
  exact (directory_upsert_preserves_discovered_at.2.2.2 _ _ hx)

/-- C3: running the same bulk upsert twice yields the same table as
running it once: for Subdomain and HostPortMapping batches,
bulk_create_ignore_conflicts leaves already-existing rows completely
unchanged (the result only extends the table) and a repeated run is a
no-op; for Directory batches, a repeated bulk_upsert overwrites the
conflicting rows with equal values, so it is also a no-op. -/
theorem upsert_idempotent :
    (∀ (now1 now2 : ℕ) (t : List (SubdomainKey × ℕ)) (b : List SubdomainKey),
      bulkCreateIgnoreConflicts now2 (bulkCreateIgnoreConflicts now1 t b) b =
        bulkCreateIgnoreConflicts now1 t b) ∧
    (∀ (now1 now2 : ℕ) (t : List (HPMKey × ℕ)) (b : List HPMKey),
      bulkCreateIgnoreConflicts now2 (bulkCreateIgnoreConflicts now1 t b) b =
        bulkCreateIgnoreConflicts now1 t b) ∧
    (∀ (now : ℕ) (t : List (SubdomainKey × ℕ)) (b : List SubdomainKey),
      ∃ u, bulkCreateIgnoreConflicts now t b = t ++ u) ∧
    (∀ (now : ℕ) (t : List (HPMKey × ℕ)) (b : List HPMKey),
      ∃ u, bulkCreateIgnoreConflicts now t b = t ++ u) ∧
    (∀ (now1 now2 : ℕ) (t : List DirRow) (dtos : List DirectoryDTO),
      dirRepoBulkUpsert now2 (dirRepoBulkUpsert now1 t dtos) dtos =
        dirRepoBulkUpsert now1 t dtos) := by
  refine ⟨fun now1 now2 t b => bulkCreate_idempotent now1 now2 b t,
    fun now1 now2 t b => bulkCreate_idempotent now1 now2 b t,
    fun now t b => bulkCreate_append now b t,
    fun now t b => bulkCreate_append now b t, ?_⟩
  intro now1 now2 t dtos
  by_cases h : dtos = []
  · simp [dirRepoBulkUpsert, h]
  · simp only [dirRepoBulkUpsert, if_neg h]
    exact dirBulk_idempotent now1 now2 t (dtos.map dtoToItem)

/- ------------------------------------------------------------------ -/
/- Snapshot ingestion: save_and_sync                                   -/
/- (backend/apps/asset/services/snapshot/                              -/
/-  directory_snapshots_service.py lines 20-69)                        -/
/- ------------------------------------------------------------------ -/

/-- DirectorySnapshotDTO as consumed by save_and_sync: the Directory
payload plus the scan reference. -/
structure DirectorySnapshotDTO where
  scanId : ℕ
  websiteId : ℕ
  targetId : Option ℕ
  url : String
  status : Option ℤ
  contentLength : Option ℤ
  words : Option ℤ
  lineCount : Option ℤ
  contentType : Option String
  duration : Option ℤ
deriving DecidableEq, Repr

/-- Modelled from the spec: DirectorySnapshotDTO.to_asset_dto (the dtos
module is not under src); specification section 4.8 step 3 transforms a
snapshot DTO into the canonical asset DTO by dropping the scan
reference. -/
def toAssetDto (s : DirectorySnapshotDTO) : DirectoryDTO :=
  ⟨s.websiteId, s.targetId, s.url, s.status, s.contentLength, s.words,
    s.lineCount, s.contentType, s.duration⟩

/-- Modelled from the spec: DjangoScanRepository.exists (the scan
repository is not under src); whether the Scan row with the given id
still exists, modelled as membership in the list of live Scan ids. -/
def scanExists (scans : List ℕ) (scanId : ℕ) : Bool :=
  scans.contains scanId

/-- Modelled from the spec:
DjangoDirectorySnapshotRepository.save_snapshots (the snapshot repository
is not under src); specification section 4.8 step 2 is a scan-scoped
append-only write of the snapshot rows. -/
def saveSnapshots (table items : List DirectorySnapshotDTO) :
    List DirectorySnapshotDTO :=
  table ++ items

/-- The durable state save_and_sync acts on: the live Scan ids, the
snapshot table, and the canonical Directory table. -/
structure IngestState where
  scans : List ℕ
  snapshots : List DirectorySnapshotDTO
  directories : List DirRow
deriving DecidableEq, Repr

/-- The writes save_and_sync performs, in order. -/
inductive IngestEvent where
  | snapshotWrite (rows : ℕ)
  | canonicalUpsert (rows : ℕ)
deriving DecidableEq, Repr

/-- DirectorySnapshotsService.save_and_sync
(directory_snapshots_service.py lines 20-69): return at once on an empty
batch; look up the scan id of the first item and silently drop the whole
batch when that Scan no longer exists; otherwise save the snapshot rows
and then upsert the canonical rows through DirectoryService.bulk_upsert.
now is the canonical insert timestamp; the event list records the writes
performed, in order. -/
def saveAndSync (now : ℕ) (st : IngestState)
    (items : List DirectorySnapshotDTO) : IngestState × List IngestEvent :=
  match items with
  | [] => (st, [])
  | first :: _ =>
    if scanExists st.scans first.scanId then
      ({ st with
          snapshots := saveSnapshots st.snapshots items,
          directories :=
            dirServiceBulkUpsert now st.directories (items.map toAssetDto) },
       [IngestEvent.snapshotWrite items.length,
        IngestEvent.canonicalUpsert items.length])
    else (st, [])

/-- C4: for every non-empty snapshot batch whose scan id no longer
references an existing Scan, save_and_sync returns normally with the
state unchanged and no write events (zero rows written to either table);
when the Scan still exists it appends the snapshot rows and then performs
the canonical bulk upsert, in that order. -/
theorem save_and_sync_scan_deleted (now : ℕ) (st : IngestState)
    (items : List DirectorySnapshotDTO) (first : DirectorySnapshotDTO)
    (hne : items.head? = some first) :
    (scanExists st.scans first.scanId = false →
      saveAndSync now st items = (st, [])) ∧
    (scanExists st.scans first.scanId = true →
      saveAndSync now st items =
        ({ scans := st.scans,
           snapshots := saveSnapshots st.snapshots items,
           directories :=
             dirServiceBulkUpsert now st.directories (items.map toAssetDto) },
         [IngestEvent.snapshotWrite items.length,
          IngestEvent.canonicalUpsert items.length])) := by
  cases items with
  | nil => simp at hne
  | cons a rest =>
    have ha : a = first := by
      simpa using hne
    subst ha
    constructor
    · intro hfalse
      simp only [saveAndSync]
      rw [if_neg (by rw [hfalse]; exact Bool.false_ne_true)]
    · intro htrue
      simp only [saveAndSync]
      rw [if_pos htrue]

/-- C4 witness: scan 7 has been deleted (only scan 1 is live), so the
batch is dropped with no writes; the same batch for live scan 1 writes
the snapshot row and then the canonical row. -/
theorem save_and_sync_scan_deleted_witness :
    saveAndSync 3 ⟨[1], [], []⟩
        [⟨7, 1, some 1, "/a", some 200, none, none, none, none, none⟩] =
      (⟨[1], [], []⟩, []) ∧
    saveAndSync 3 ⟨[1], [], []⟩
        [⟨1, 1, some 1, "/a", some 200, none, none, none, none, none⟩] =
      (⟨[1], [⟨1, 1, some 1, "/a", some 200, none, none, none, none, none⟩],
        [{ key := ⟨1, "/a"⟩,
           vals := ⟨some 1, some 200, none, none, none, "", none⟩,
           discoveredAt := 3 }]⟩,
       [IngestEvent.snapshotWrite 1, IngestEvent.canonicalUpsert 1]) := by
  constructor
  · exact (save_and_sync_scan_deleted 3 ⟨[1], [], []⟩
      [⟨7, 1, some 1, "/a", some 200, none, none, none, none, none⟩]
      ⟨7, 1, some 1, "/a", some 200, none, none, none, none, none⟩
      rfl).1 (by decide)
  · have h := (save_and_sync_scan_deleted 3 ⟨[1], [], []⟩
      [⟨1, 1, some 1, "/a", some 200, none, none, none, none, none⟩]
      ⟨1, 1, some 1, "/a", some 200, none, none, none, none, none⟩
      rfl).2 (by decide)
    rw [h]
    decide

end Xingrin
